import Mathlib

/-!
Shallow embedding of `src/src/modules/geodesy/src/path_interpolation.py`
(classes `PathInterpolatorECEF` and `PathInterpolatorUTM`).

Coordinates are modelled as exact rationals (`ℚ`).  Python's true division
`/` (the file has `from __future__ import division`) is rational division;
`int(...)` truncates toward zero; `range(k)` of a negative `k` is empty;
a list index `-1` counts from the end of the list.  The only exception the
interpolation code can raise is the `ZeroDivisionError` of
`d / (centimetersPerPoint / 100.0)` when `centimetersPerPoint` is zero,
so the density computation returns an `Option`, `none` standing for that
exception and propagating outward exactly as the exception would.

The helper `euclidian_distance_3d` / `euclidian_distance_2d` and
`global_to_relative_ECEF` live in `geodesy_conversion_ECEF.py` /
`geodesy_conversion_UTM.py`, which are not part of the staged sources;
they are modelled from the spec where marked.  Since the square root of a
rational is in general irrational, the embedding carries the *squared*
distance and evaluates `trunc (sqrt dsq / s)` through the identity
`⌊sqrt q⌋ = Nat.sqrt ⌊q⌋` for `q ≥ 0` — proved below as
`ratSqrtFloor_sq_div` and tied to the textual form of line 41 by
`get_point_density_ECEF_eq_trunc`.
-/

set_option linter.unusedVariables false

/-- Truncation of a rational toward zero: Python's `int(...)` applied to the
result of a true division. -/
def ratTrunc (q : ℚ) : ℤ := if 0 ≤ q then ⌊q⌋ else ⌈q⌉

/-- `⌊Real.sqrt q⌋` for a nonnegative rational `q`, computed without leaving
`ℚ`: the floor of the square root of `q` equals `Nat.sqrt ⌊q⌋`. -/
def ratSqrtFloor (q : ℚ) : ℕ := Nat.sqrt (Int.toNat ⌊q⌋)

/-- Modelled from the spec: the repository's `euclidian_distance_3d`
(`geodesy_conversion_ECEF.py`, not under `src/`) returns the square root of
this quantity — "Compute the Euclidean distance `d` between `P_i` and
`P_{i+1}` (3D distance for the Cartesian frame)".  The embedding carries the
square; every use keeps the root under a floor. -/
def dist3sq (x1 y1 z1 x2 y2 z2 : ℚ) : ℚ :=
  (x2 - x1) ^ 2 + (y2 - y1) ^ 2 + (z2 - z1) ^ 2

/-- Modelled from the spec: squared 2D Euclidean distance, the square of the
repository's `euclidian_distance_2d` ("2D for the planar frame"). -/
def dist2sq (x1 y1 x2 y2 : ℚ) : ℚ := (x2 - x1) ^ 2 + (y2 - y1) ^ 2

/-- Python list indexing: a negative index counts from the end of the list
(the corner case at `i = 0`, `numberOfCoarsePoints = 1` reads index `-1`).
Out-of-range reads default to `0`; every reachable call is in range. -/
def pyNth (xs : List ℚ) (i : ℤ) : ℚ :=
  if i < 0 then xs.getD ((xs.length : ℤ) + i).toNat 0 else xs.getD i.toNat 0

/-- Lines 40–43, `PathInterpolatorECEF.get_point_density_ECEF`:
`int(euclidian_distance_3d(x1,y1,z1,x2,y2,z2) / (centimetersPerPoint/100.0))`.
`none` is the `ZeroDivisionError` raised when `centimetersPerPoint = 0`.
The truncated quotient `trunc (sqrt dsq / s)` is encoded rationally:
`ratSqrtFloor (dsq / s^2)` with the sign of `s` reattached
(`get_point_density_ECEF_eq_trunc` below proves this equals the literal
`ratTrunc (d / (centimetersPerPoint / 100))` whenever `d ≥ 0` and
`d^2 = dsq`). -/
def get_point_density_ECEF (x1 y1 z1 x2 y2 z2 centimetersPerPoint : ℚ) : Option ℤ :=
  if centimetersPerPoint = 0 then none
  else
    let dsq := dist3sq x1 y1 z1 x2 y2 z2
    let s := centimetersPerPoint / 100
    let k : ℤ := ratSqrtFloor (dsq / s ^ 2)
    some (if 0 < centimetersPerPoint then k else -k)

/-- Line 41's arithmetic as a function of the already-computed segment
distance: `int(d / (centimetersPerPoint / 100.0))`. -/
def pointDensityOfDist (d centimetersPerPoint : ℚ) : ℤ :=
  ratTrunc (d / (centimetersPerPoint / 100))

/-- The point density the SPEC prescribes for a segment:
`pointDensity = floor(d / (S / 100))` with `d` the true 3D Euclidean
distance between `P_i` and `P_{i+1}` (all three coordinates of both points
entering), for a strictly positive spacing `S`.  Stated for comparison with
the code's `get_point_density_ECEF`. -/
def specPointDensity3d (x1 y1 z1 x2 y2 z2 S : ℚ) : ℤ :=
  if 0 < S then (ratSqrtFloor (dist3sq x1 y1 z1 x2 y2 z2 / (S / 100) ^ 2) : ℤ) else 0

/-- Lines 66–69 / 83–85: `for n in range(pointDensity):
append(x0 + (x1-x0)*(n/pointDensity))`.  A nonpositive `pointDensity` gives
an empty `range`, hence no points and no division. -/
def linspaceSeg (x0 x1 : ℚ) (pointDensity : ℤ) : List ℚ :=
  (List.range pointDensity.toNat).map
    (fun (n : ℕ) => x0 + (x1 - x0) * ((n : ℚ) / (pointDensity : ℚ)))

/-- Lines 46–88, `PathInterpolatorECEF.interpolate_ECEF`.  The two `if`
blocks of the source append to the same (initially empty) lists; their
conditions `i < N-1` and `i == N-1` are mutually exclusive, so they are
rendered as an `if`/`else if`.  Faithful details: the vanilla density call
passes `relativeX[i]` (not `relativeY[i]`) as the first point's
y-coordinate, the corner-case density call passes the literal spacing `25`,
and the corner case reads index `i-1`, which Python wraps to the last
element when `i = 0`. -/
def interpolate_ECEF (i : ℕ) (relativeX relativeY relativeZ : List ℚ)
    (numberOfCoarsePoints : ℕ) (centimetersPerPoint : ℚ) :
    Option (List ℚ × List ℚ × List ℚ) :=
  if (i : ℤ) < (numberOfCoarsePoints : ℤ) - 1 then
    match get_point_density_ECEF
        (pyNth relativeX i) (pyNth relativeX i) (pyNth relativeZ i)
        (pyNth relativeX ((i : ℤ) + 1)) (pyNth relativeY ((i : ℤ) + 1))
        (pyNth relativeZ ((i : ℤ) + 1)) centimetersPerPoint with
    | none => none
    | some pointDensity =>
      some (linspaceSeg (pyNth relativeX i) (pyNth relativeX ((i : ℤ) + 1)) pointDensity,
            linspaceSeg (pyNth relativeY i) (pyNth relativeY ((i : ℤ) + 1)) pointDensity,
            linspaceSeg (pyNth relativeZ i) (pyNth relativeZ ((i : ℤ) + 1)) pointDensity)
  else if (i : ℤ) = (numberOfCoarsePoints : ℤ) - 1 then
    match get_point_density_ECEF
        (pyNth relativeX ((i : ℤ) - 1)) (pyNth relativeX ((i : ℤ) - 1))
        (pyNth relativeZ ((i : ℤ) - 1))
        (pyNth relativeX i) (pyNth relativeY i) (pyNth relativeZ i) 25 with
    | none => none
    | some pointDensity =>
      some (linspaceSeg (pyNth relativeX ((i : ℤ) - 1)) (pyNth relativeX i) pointDensity,
            linspaceSeg (pyNth relativeY ((i : ℤ) - 1)) (pyNth relativeY i) pointDensity,
            linspaceSeg (pyNth relativeZ ((i : ℤ) - 1)) (pyNth relativeZ i) pointDensity)
  else some ([], [], [])

/-- The density the vanilla branch computes for coarse index `i` (line 57),
with the exception value defaulted to `0` for use in statements that assume
a nonzero spacing. -/
def segDensity (relativeX relativeY relativeZ : List ℚ) (centimetersPerPoint : ℚ)
    (i : ℕ) : ℤ :=
  (get_point_density_ECEF
    (pyNth relativeX i) (pyNth relativeX i) (pyNth relativeZ i)
    (pyNth relativeX ((i : ℤ) + 1)) (pyNth relativeY ((i : ℤ) + 1))
    (pyNth relativeZ ((i : ℤ) + 1)) centimetersPerPoint).getD 0

/-- The accumulation loop of `interpolation_publish_ECEF` (lines 116–123)
over an explicit list of coarse indices: each `interpolate_ECEF` result is
`extend`ed onto the three accumulator lists; an exception (`none`) aborts
the run with no output. -/
def interpSegsECEF (relativeX relativeY relativeZ : List ℚ)
    (numberOfCoarsePoints : ℕ) (centimetersPerPoint : ℚ) :
    List ℕ → Option (List ℚ × List ℚ × List ℚ)
  | [] => some ([], [], [])
  | i :: rest =>
    match interpolate_ECEF i relativeX relativeY relativeZ numberOfCoarsePoints
        centimetersPerPoint with
    | none => none
    | some fine =>
      match interpSegsECEF relativeX relativeY relativeZ numberOfCoarsePoints
          centimetersPerPoint rest with
      | none => none
      | some acc => some (fine.1 ++ acc.1, fine.2.1 ++ acc.2.1, fine.2.2 ++ acc.2.2)

/-- Lines 112–123: `for i in range(numberOfCoarsePoints): ... extend(...)`,
with `numberOfCoarsePoints = len(relativeX)`.  This is the complete fine
trajectory (the publishing loop below it only re-sends it). -/
def interpolateAll_ECEF (relativeX relativeY relativeZ : List ℚ)
    (centimetersPerPoint : ℚ) : Option (List ℚ × List ℚ × List ℚ) :=
  interpSegsECEF relativeX relativeY relativeZ relativeX.length centimetersPerPoint
    (List.range relativeX.length)

/-- Modelled from the spec: `global_to_relative_ECEF`
(`geodesy_conversion_ECEF.py`, not under `src/`) — "produce a relative
sequence by subtracting a fixed reference (by default, the first sample)
component-wise from every sample, including the reference itself (which
becomes zero)". -/
def global_to_relative (xs : List ℚ) : List ℚ := xs.map (fun v => v - xs.headD 0)

/-- A point-wise view of the three per-axis lists, for stating membership
and order properties. -/
def zip3 (xs ys zs : List ℚ) : List (ℚ × ℚ × ℚ) := xs.zip (ys.zip zs)

/-- Lines 167–170, `PathInterpolatorUTM.get_point_density_UTM`: note the
source passes `relativeEasting1` twice to `euclidian_distance_2d`, so the
second point's northing is differenced against the first point's *easting*;
`relativeNorthing1` is ignored. -/
def get_point_density_UTM (relativeEasting1 relativeNorthing1 relativeEasting2
    relativeNorthing2 centimetersPerPoint : ℚ) : Option ℤ :=
  if centimetersPerPoint = 0 then none
  else
    let dsq := dist2sq relativeEasting1 relativeEasting1 relativeEasting2 relativeNorthing2
    let s := centimetersPerPoint / 100
    let k : ℤ := ratSqrtFloor (dsq / s ^ 2)
    some (if 0 < centimetersPerPoint then k else -k)

/-- Lines 172–208, `PathInterpolatorUTM.interpolate_UTM`.  Both density
calls pass the literal `25`; the instance's `centimetersPerPoint` attribute
is never consulted (it is a parameter here solely because the attribute
exists on the object). -/
def interpolate_UTM (i : ℕ) (relativeEasting relativeNorthing : List ℚ)
    (numberOfCoarsePoints : ℕ) (centimetersPerPoint : ℚ) :
    Option (List ℚ × List ℚ) :=
  if (i : ℤ) < (numberOfCoarsePoints : ℤ) - 1 then
    match get_point_density_UTM (pyNth relativeEasting i) (pyNth relativeEasting i)
        (pyNth relativeEasting ((i : ℤ) + 1)) (pyNth relativeNorthing ((i : ℤ) + 1)) 25 with
    | none => none
    | some pointDensity =>
      some (linspaceSeg (pyNth relativeEasting i) (pyNth relativeEasting ((i : ℤ) + 1)) pointDensity,
            linspaceSeg (pyNth relativeNorthing i) (pyNth relativeNorthing ((i : ℤ) + 1)) pointDensity)
  else if (i : ℤ) = (numberOfCoarsePoints : ℤ) - 1 then
    match get_point_density_UTM (pyNth relativeEasting ((i : ℤ) - 1))
        (pyNth relativeEasting ((i : ℤ) - 1))
        (pyNth relativeEasting i) (pyNth relativeNorthing i) 25 with
    | none => none
    | some pointDensity =>
      some (linspaceSeg (pyNth relativeEasting ((i : ℤ) - 1)) (pyNth relativeEasting i) pointDensity,
            linspaceSeg (pyNth relativeNorthing ((i : ℤ) - 1)) (pyNth relativeNorthing i) pointDensity)
  else some ([], [])

/-! ### Arithmetic bridge: the rational encoding of `int(sqrt(dsq) / s)` -/

theorem ratTrunc_nonneg (q : ℚ) (h : 0 ≤ q) : ratTrunc q = ⌊q⌋ := if_pos h

theorem ratTrunc_nonpos (q : ℚ) (h : q ≤ 0) : ratTrunc q = -⌊-q⌋ := by
  rcases eq_or_lt_of_le h with he | hlt
  · subst he
    simp [ratTrunc]
  · rw [ratTrunc, if_neg (not_le.mpr hlt), Int.floor_neg, neg_neg]

/-- Floor of a nonnegative square root, without leaving `ℚ`:
`⌊sqrt (d^2 / s^2)⌋ = ⌊d / s⌋` for `0 ≤ d`, `0 < s`, where the left side is
computed as `Nat.sqrt ⌊d^2 / s^2⌋`. -/
theorem ratSqrtFloor_sq_div (d s : ℚ) (hd : 0 ≤ d) (hs : 0 < s) :
    (ratSqrtFloor (d ^ 2 / s ^ 2) : ℤ) = ⌊d / s⌋ := by
  have hr : 0 ≤ d / s := div_nonneg hd hs.le
  have hds : d ^ 2 / s ^ 2 = (d / s) ^ 2 := (div_pow d s 2).symm
  rw [ratSqrtFloor, hds]
  set r := d / s with hrdef
  have hfl : 0 ≤ ⌊r⌋ := Int.floor_nonneg.mpr hr
  have hfl2 : 0 ≤ ⌊r ^ 2⌋ := Int.floor_nonneg.mpr (sq_nonneg r)
  apply le_antisymm
  · set k := Nat.sqrt (Int.toNat ⌊r ^ 2⌋) with hk
    have hkk : (k : ℤ) * k ≤ ⌊r ^ 2⌋ := by
      have h1 := Nat.sqrt_le (Int.toNat ⌊r ^ 2⌋)
      calc ((k : ℤ) * k) = ((k * k : ℕ) : ℤ) := by push_cast; ring
        _ ≤ ((Int.toNat ⌊r ^ 2⌋ : ℕ) : ℤ) := by exact_mod_cast h1
        _ = ⌊r ^ 2⌋ := Int.toNat_of_nonneg hfl2
    have hkr : (k : ℚ) ≤ r := by
      have h2 : ((⌊r ^ 2⌋ : ℤ) : ℚ) ≤ r ^ 2 := Int.floor_le _
      have h3 : ((k : ℚ)) * k ≤ r ^ 2 := by
        calc ((k : ℚ) * k) = (((k : ℤ) * k : ℤ) : ℚ) := by push_cast; ring
          _ ≤ ((⌊r ^ 2⌋ : ℤ) : ℚ) := by exact_mod_cast hkk
          _ ≤ r ^ 2 := h2
      nlinarith [Nat.cast_nonneg (α := ℚ) k]
    exact Int.le_floor.mpr (by exact_mod_cast hkr)
  · have h1 : (⌊r⌋ : ℚ) ≤ r := Int.floor_le r
    have h2 : ⌊r⌋ * ⌊r⌋ ≤ ⌊r ^ 2⌋ := by
      apply Int.le_floor.mpr
      push_cast
      have h0 : (0 : ℚ) ≤ (⌊r⌋ : ℚ) := by exact_mod_cast hfl
      nlinarith
    have h4 : Int.toNat ⌊r⌋ * Int.toNat ⌊r⌋ ≤ Int.toNat ⌊r ^ 2⌋ := by
      have h5 : ((Int.toNat ⌊r⌋ * Int.toNat ⌊r⌋ : ℕ) : ℤ) ≤ ((Int.toNat ⌊r ^ 2⌋ : ℕ) : ℤ) := by
        push_cast [Int.toNat_of_nonneg hfl, Int.toNat_of_nonneg hfl2]
        exact h2
      exact_mod_cast h5
    have h6 : Int.toNat ⌊r⌋ ≤ Nat.sqrt (Int.toNat ⌊r ^ 2⌋) := Nat.le_sqrt.mpr h4
    calc ⌊r⌋ = (Int.toNat ⌊r⌋ : ℤ) := (Int.toNat_of_nonneg hfl).symm
      _ ≤ _ := by exact_mod_cast h6

/-- The embedding of lines 40–43 agrees with the literal text of line 41,
`int(d / (centimetersPerPoint / 100.0))`, for any nonnegative `d` whose
square is the squared distance of the six coordinates. -/
theorem get_point_density_ECEF_eq_trunc (x1 y1 z1 x2 y2 z2 cm d : ℚ)
    (hcm : cm ≠ 0) (hd : 0 ≤ d) (hsq : d ^ 2 = dist3sq x1 y1 z1 x2 y2 z2) :
    get_point_density_ECEF x1 y1 z1 x2 y2 z2 cm =
      some (ratTrunc (d / (cm / 100))) := by
  rw [get_point_density_ECEF, if_neg hcm]
  simp only [← hsq]
  rcases lt_or_gt_of_ne hcm with hneg | hpos
  · have hs : 0 < -(cm / 100) := by
      have : cm / 100 < 0 := div_neg_of_neg_of_pos hneg (by norm_num)
      linarith
    have hq : d / (cm / 100) ≤ 0 :=
      div_nonpos_iff.mpr (Or.inl ⟨hd, by linarith⟩)
    rw [if_neg (not_lt.mpr hneg.le), ratTrunc_nonpos _ hq]
    have hnegdiv : -(d / (cm / 100)) = d / -(cm / 100) := by
      rw [div_neg]
    have hsqneg : (-(cm / 100)) ^ 2 = (cm / 100) ^ 2 := neg_sq (cm / 100)
    have key := ratSqrtFloor_sq_div d (-(cm / 100)) hd hs
    rw [hsqneg] at key
    rw [hnegdiv, ← key]
  · have hs : 0 < cm / 100 := div_pos hpos (by norm_num)
    rw [if_pos hpos, ratTrunc_nonneg _ (div_nonneg hd hs.le)]
    exact congrArg some (ratSqrtFloor_sq_div d (cm / 100) hd hs)

theorem ratSqrtFloor_mono {q q' : ℚ} (h : q ≤ q') : ratSqrtFloor q ≤ ratSqrtFloor q' :=
  Nat.sqrt_le_sqrt (Int.toNat_le_toNat (Int.floor_le_floor h))

/-! ### Structural lemmas about the interpolation loop -/

theorem linspaceSeg_length (x0 x1 : ℚ) (pd : ℤ) :
    (linspaceSeg x0 x1 pd).length = pd.toNat := by
  rw [linspaceSeg, List.length_map, List.length_range]

theorem linspaceSeg_nonpos (x0 x1 : ℚ) (pd : ℤ) (h : pd ≤ 0) :
    linspaceSeg x0 x1 pd = [] := by
  simp [linspaceSeg, Int.toNat_of_nonpos h]

theorem linspaceSeg_cons (x0 x1 : ℚ) (pd : ℤ) (h : 1 ≤ pd) :
    ∃ t, linspaceSeg x0 x1 pd = x0 :: t := by
  obtain ⟨k, hk⟩ : ∃ k, pd.toNat = k + 1 := ⟨pd.toNat - 1, by omega⟩
  refine ⟨List.map ((fun (n : ℕ) => x0 + (x1 - x0) * ((n : ℚ) / (pd : ℚ))) ∘ Nat.succ)
    (List.range k), ?_⟩
  rw [linspaceSeg, hk, List.range_succ_eq_map, List.map_cons, List.map_map]
  congr 1
  simp only [Nat.cast_zero, zero_div, mul_zero, add_zero]

/-- The vanilla branch (`i < N-1`), written with its density named. -/
theorem interpolate_ECEF_vanilla (i : ℕ) (rX rY rZ : List ℚ) (N : ℕ) (cm : ℚ)
    (hcm : cm ≠ 0) (hi : (i : ℤ) < (N : ℤ) - 1) :
    interpolate_ECEF i rX rY rZ N cm =
      some (linspaceSeg (pyNth rX i) (pyNth rX ((i : ℤ) + 1)) (segDensity rX rY rZ cm i),
            linspaceSeg (pyNth rY i) (pyNth rY ((i : ℤ) + 1)) (segDensity rX rY rZ cm i),
            linspaceSeg (pyNth rZ i) (pyNth rZ ((i : ℤ) + 1)) (segDensity rX rY rZ cm i)) := by
  obtain ⟨k, hk⟩ : ∃ k, get_point_density_ECEF
      (pyNth rX i) (pyNth rX i) (pyNth rZ i)
      (pyNth rX ((i : ℤ) + 1)) (pyNth rY ((i : ℤ) + 1))
      (pyNth rZ ((i : ℤ) + 1)) cm = some k := by
    rw [get_point_density_ECEF, if_neg hcm]
    exact ⟨_, rfl⟩
  rw [interpolate_ECEF, if_pos hi, hk, segDensity, hk]
  rfl

theorem interpolate_ECEF_lengths (i : ℕ) (rX rY rZ : List ℚ) (N : ℕ) (cm : ℚ)
    (t : List ℚ × List ℚ × List ℚ)
    (h : interpolate_ECEF i rX rY rZ N cm = some t) :
    t.1.length = t.2.1.length ∧ t.2.1.length = t.2.2.length := by
  unfold interpolate_ECEF at h
  split at h
  · split at h
    · cases h
    · cases h
      simp [linspaceSeg_length]
  · split at h
    · split at h
      · cases h
      · cases h
        simp [linspaceSeg_length]
    · cases h
      simp

theorem interpolate_ECEF_isSome (i : ℕ) (rX rY rZ : List ℚ) (N : ℕ) (cm : ℚ)
    (hcm : cm ≠ 0) : ∃ t, interpolate_ECEF i rX rY rZ N cm = some t := by
  unfold interpolate_ECEF
  split
  · obtain ⟨k, hk⟩ : ∃ k, get_point_density_ECEF
        (pyNth rX i) (pyNth rX i) (pyNth rZ i)
        (pyNth rX ((i : ℤ) + 1)) (pyNth rY ((i : ℤ) + 1))
        (pyNth rZ ((i : ℤ) + 1)) cm = some k := by
      rw [get_point_density_ECEF, if_neg hcm]
      exact ⟨_, rfl⟩
    rw [hk]
    exact ⟨_, rfl⟩
  · split
    · obtain ⟨k, hk⟩ : ∃ k, get_point_density_ECEF
          (pyNth rX ((i : ℤ) - 1)) (pyNth rX ((i : ℤ) - 1)) (pyNth rZ ((i : ℤ) - 1))
          (pyNth rX i) (pyNth rY i) (pyNth rZ i) 25 = some k := by
        rw [get_point_density_ECEF, if_neg (by norm_num : (25 : ℚ) ≠ 0)]
        exact ⟨_, rfl⟩
      rw [hk]
      exact ⟨_, rfl⟩
    · exact ⟨_, rfl⟩

theorem interpSegsECEF_lengths (rX rY rZ : List ℚ) (N : ℕ) (cm : ℚ) :
    ∀ (l : List ℕ) (t : List ℚ × List ℚ × List ℚ),
      interpSegsECEF rX rY rZ N cm l = some t →
      t.1.length = t.2.1.length ∧ t.2.1.length = t.2.2.length
  | [], t, h => by
    cases h
    simp
  | i :: rest, t, h => by
    unfold interpSegsECEF at h
    cases hfi : interpolate_ECEF i rX rY rZ N cm with
    | none =>
      rw [hfi] at h
      exact Option.noConfusion h
    | some fine =>
      rw [hfi] at h
      cases hacc : interpSegsECEF rX rY rZ N cm rest with
      | none =>
        rw [hacc] at h
        exact Option.noConfusion h
      | some acc =>
        rw [hacc] at h
        have h' : (fine.1 ++ acc.1, fine.2.1 ++ acc.2.1, fine.2.2 ++ acc.2.2) = t :=
          Option.some.inj h
        have h1 := interpolate_ECEF_lengths i rX rY rZ N cm fine hfi
        have h2 := interpSegsECEF_lengths rX rY rZ N cm rest acc hacc
        rw [← h']
        simp only [List.length_append]
        omega

theorem zip3_cons (x y z : ℚ) (xs ys zs : List ℚ) :
    zip3 (x :: xs) (y :: ys) (z :: zs) = (x, y, z) :: zip3 xs ys zs := rfl

theorem zip3_append (xs ys zs xs' ys' zs' : List ℚ)
    (h1 : xs.length = ys.length) (h2 : ys.length = zs.length) :
    zip3 (xs ++ xs') (ys ++ ys') (zs ++ zs') = zip3 xs ys zs ++ zip3 xs' ys' zs' := by
  induction xs generalizing ys zs with
  | nil =>
    cases ys with
    | nil =>
      cases zs with
      | nil => rfl
      | cons z zs => simp at h2
    | cons y ys => simp at h1
  | cons x xs ih =>
    cases ys with
    | nil => simp at h1
    | cons y ys =>
      cases zs with
      | nil => simp at h2
      | cons z zs =>
        simp only [List.cons_append, zip3_cons]
        rw [ih ys zs (by simpa using h1) (by simpa using h2)]

theorem sublist_join_of_forall {α : Type} (f g : ℕ → List α) :
    ∀ l : List ℕ, (∀ i ∈ l, (f i).Sublist (g i)) →
      ((l.map f).flatten).Sublist ((l.map g).flatten)
  | [], _ => List.Sublist.refl []
  | i :: rest, h => by
    simp only [List.map_cons, List.flatten_cons]
    exact (h i (List.mem_cons_self i rest)).append
      (sublist_join_of_forall f g rest (fun j hj => h j (List.mem_cons_of_mem i hj)))

/-- Coverage engine: along any list of coarse indices, every vanilla segment
whose density is at least `1` contributes its start point as the head of its
per-segment output, so the selected coarse points form a sublist — in
order — of the assembled fine trajectory. -/
theorem coverage_go (rX rY rZ : List ℚ) (N : ℕ) (cm : ℚ) (hcm : cm ≠ 0) :
    ∀ l : List ℕ, ∃ xs ys zs,
      interpSegsECEF rX rY rZ N cm l = some (xs, ys, zs) ∧
      ((l.map (fun (i : ℕ) =>
          if (i : ℤ) < (N : ℤ) - 1 ∧ 1 ≤ segDensity rX rY rZ cm i
          then [(pyNth rX (i : ℤ), pyNth rY (i : ℤ), pyNth rZ (i : ℤ))]
          else ([] : List (ℚ × ℚ × ℚ)))).flatten).Sublist (zip3 xs ys zs)
  | [] => ⟨[], [], [], rfl, List.Sublist.refl _⟩
  | i :: rest => by
    obtain ⟨xs, ys, zs, hrest, hsub⟩ := coverage_go rX rY rZ N cm hcm rest
    by_cases hcond : (i : ℤ) < (N : ℤ) - 1 ∧ 1 ≤ segDensity rX rY rZ cm i
    · have hv := interpolate_ECEF_vanilla i rX rY rZ N cm hcm hcond.1
      obtain ⟨tx, htx⟩ :=
        linspaceSeg_cons (pyNth rX i) (pyNth rX ((i : ℤ) + 1)) _ hcond.2
      obtain ⟨ty, hty⟩ :=
        linspaceSeg_cons (pyNth rY i) (pyNth rY ((i : ℤ) + 1)) _ hcond.2
      obtain ⟨tz, htz⟩ :=
        linspaceSeg_cons (pyNth rZ i) (pyNth rZ ((i : ℤ) + 1)) _ hcond.2
      refine ⟨(pyNth rX (i : ℤ) :: tx) ++ xs, (pyNth rY (i : ℤ) :: ty) ++ ys,
        (pyNth rZ (i : ℤ) :: tz) ++ zs, ?_, ?_⟩
      · unfold interpSegsECEF
        rw [hv, hrest, htx, hty, htz]
      · have l1 : (pyNth rX (i : ℤ) :: tx).length = (pyNth rY (i : ℤ) :: ty).length := by
          rw [← htx, ← hty, linspaceSeg_length, linspaceSeg_length]
        have l2 : (pyNth rY (i : ℤ) :: ty).length = (pyNth rZ (i : ℤ) :: tz).length := by
          rw [← hty, ← htz, linspaceSeg_length, linspaceSeg_length]
        rw [List.map_cons, List.flatten_cons, if_pos hcond,
          zip3_append _ _ _ xs ys zs l1 l2, zip3_cons, List.singleton_append,
          List.cons_append]
        exact List.Sublist.cons₂ _ (hsub.trans (List.sublist_append_right _ _))
    · obtain ⟨t, ht⟩ := interpolate_ECEF_isSome i rX rY rZ N cm hcm
      obtain ⟨hlen1, hlen2⟩ := interpolate_ECEF_lengths i rX rY rZ N cm t ht
      refine ⟨t.1 ++ xs, t.2.1 ++ ys, t.2.2 ++ zs, ?_, ?_⟩
      · unfold interpSegsECEF
        rw [ht, hrest]
      · rw [List.map_cons, List.flatten_cons, if_neg hcond, List.nil_append,
          zip3_append t.1 t.2.1 t.2.2 xs ys zs hlen1 hlen2]
        exact hsub.trans (List.sublist_append_right _ _)

/-! ### Evaluation helpers for concrete runs -/

theorem int_toNat_lit (n : ℕ) [n.AtLeastTwo] :
    (no_index (OfNat.ofNat n) : ℤ).toNat = OfNat.ofNat n := rfl

theorem linspaceSeg_same (x : ℚ) (pd : ℤ) :
    linspaceSeg x x pd = List.replicate pd.toNat x := by
  rw [linspaceSeg]
  have h : (fun (n : ℕ) => x + (x - x) * ((n : ℚ) / (pd : ℚ))) = fun _ => x := by
    funext n
    ring
  rw [h, List.map_const', List.length_range]

/-- Vanilla segment `(0,0,0) → (1,0,0)` at the configured spacing `50`:
density `2`, fine x-points `0, 1/2`. -/
theorem seg0_cm50_eval :
    interpolate_ECEF 0 [0, 1] [0, 0] [0, 0] 2 50 =
      some ([0, 1/2], [0, 0], [0, 0]) := by
  norm_num [interpolate_ECEF, get_point_density_ECEF, dist3sq, pyNth, linspaceSeg,
    ratSqrtFloor, Int.toNat_natCast, int_toNat_lit,
    show List.range 2 = [0, 1] from rfl, show List.replicate 2 (0 : ℚ) = [0, 0] from rfl]

/-- The corner-case re-run of the same segment ignores the configured `50`
and uses the hardcoded `25`: density `4`, fine x-points `0, 1/4, 1/2, 3/4`. -/
theorem seg1_cm50_eval :
    interpolate_ECEF 1 [0, 1] [0, 0] [0, 0] 2 50 =
      some ([0, 1/4, 1/2, 3/4], [0, 0, 0, 0], [0, 0, 0, 0]) := by
  norm_num [interpolate_ECEF, get_point_density_ECEF, dist3sq, pyNth, linspaceSeg,
    ratSqrtFloor, Int.toNat_natCast, int_toNat_lit,
    show List.range 4 = [0, 1, 2, 3] from rfl,
    show List.replicate 4 (0 : ℚ) = [0, 0, 0, 0] from rfl]

/-- A single coarse point: the corner case reads Python index `-1`, which
wraps to the point itself, the segment has length zero, and no spacing value
is consulted (the corner case hardcodes `25`), so any spacing — even zero —
yields an empty output with no error. -/
theorem interp_single_eval (S : ℚ) :
    interpolate_ECEF 0 [0] [0] [0] 1 S = some ([], [], []) := by
  norm_num [interpolate_ECEF, get_point_density_ECEF, dist3sq, pyNth, linspaceSeg,
    ratSqrtFloor]

theorem interpAll_single_eval (S : ℚ) :
    interpolateAll_ECEF [0] [0] [0] S = some ([], [], []) := by
  rw [interpolateAll_ECEF, show ([0] : List ℚ).length = 1 from rfl,
    show List.range 1 = [0] from rfl]
  rw [interpSegsECEF, interp_single_eval S, interpSegsECEF]
  rfl

theorem interpAll_nil_eval (S : ℚ) :
    interpolateAll_ECEF [] [] [] S = some ([], [], []) := rfl

/-- A negative spacing is never rejected: the density computation proceeds,
its truncation toward zero is `≤ 0`, and `range` of a nonpositive count is
empty, so every vanilla segment silently contributes nothing. -/
theorem interpolate_vanilla_neg (i : ℕ) (rX rY rZ : List ℚ) (N : ℕ) (cm : ℚ)
    (hneg : cm < 0) (hi : (i : ℤ) < (N : ℤ) - 1) :
    interpolate_ECEF i rX rY rZ N cm = some ([], [], []) := by
  have hv := interpolate_ECEF_vanilla i rX rY rZ N cm (ne_of_lt hneg) hi
  have hd : segDensity rX rY rZ cm i ≤ 0 := by
    simp only [segDensity, get_point_density_ECEF, if_neg (ne_of_lt hneg),
      if_neg (not_lt.mpr hneg.le), Option.getD_some]
    exact neg_nonpos.mpr (Int.natCast_nonneg _)
  rw [hv, linspaceSeg_nonpos _ _ _ hd, linspaceSeg_nonpos _ _ _ hd,
    linspaceSeg_nonpos _ _ _ hd]

/-- A zero spacing raises `ZeroDivisionError` (modelled `none`) in the first
vanilla density computation, before any point is emitted. -/
theorem interpolate_vanilla_zero (i : ℕ) (rX rY rZ : List ℚ) (N : ℕ)
    (hi : (i : ℤ) < (N : ℤ) - 1) :
    interpolate_ECEF i rX rY rZ N 0 = none := by
  simp only [interpolate_ECEF, if_pos hi, get_point_density_ECEF, eq_self_iff_true,
    if_true]

theorem gpd_neg100_eval :
    get_point_density_ECEF 0 0 0 300 0 0 (-100) = some (-300) := by
  norm_num [get_point_density_ECEF, dist3sq, ratSqrtFloor, Int.toNat_natCast, int_toNat_lit]

theorem segDensity_y_slip_eval : segDensity [0, 4] [3, 0] [0, 0] 100 0 = 4 := by
  norm_num [segDensity, get_point_density_ECEF, dist3sq, pyNth, ratSqrtFloor,
    Int.toNat_natCast, int_toNat_lit]

theorem gpd_true_dist_eval : get_point_density_ECEF 0 3 0 4 0 0 100 = some 5 := by
  norm_num [get_point_density_ECEF, dist3sq, ratSqrtFloor, Int.toNat_natCast, int_toNat_lit]

theorem specDensity_eval : specPointDensity3d 0 3 0 4 0 0 100 = 5 := by
  norm_num [specPointDensity3d, dist3sq, ratSqrtFloor, Int.toNat_natCast, int_toNat_lit]

/-- Coincident coarse points `(0,100,0) = (0,100,0)`: because the vanilla
density call passes `relativeX[i]` as the first point's y-coordinate, the
computed distance is `100`, not `0`, and the segment emits `100` copies of
the point. -/
theorem coincident_seg_eval :
    interpolate_ECEF 0 [0, 0] [100, 100] [0, 0] 2 100 =
      some (List.replicate 100 0, List.replicate 100 100, List.replicate 100 0) := by
  have hv := interpolate_ECEF_vanilla 0 [0, 0] [100, 100] [0, 0] 2 100
    (by norm_num) (by norm_num)
  have hd : segDensity [0, 0] [100, 100] [0, 0] 100 0 = 100 := by
    norm_num [segDensity, get_point_density_ECEF, dist3sq, pyNth, ratSqrtFloor,
      Int.toNat_natCast, int_toNat_lit]
  rw [hv, hd,
    show pyNth [0, 0] (((0 : ℕ) : ℤ)) = 0 from rfl,
    show pyNth [0, 0] (((0 : ℕ) : ℤ) + 1) = 0 from rfl,
    show pyNth [100, 100] (((0 : ℕ) : ℤ)) = 100 from rfl,
    show pyNth [100, 100] (((0 : ℕ) : ℤ) + 1) = 100 from rfl,
    linspaceSeg_same, linspaceSeg_same,
    show ((100 : ℤ)).toNat = 100 from rfl]

theorem coincident_seg555_eval :
    interpolate_ECEF 0 [5, 5] [5, 5] [5, 5] 2 25 = some ([], [], []) := by
  have hv := interpolate_ECEF_vanilla 0 [5, 5] [5, 5] [5, 5] 2 25
    (by norm_num) (by norm_num)
  have hd : segDensity [5, 5] [5, 5] [5, 5] 25 0 = 0 := by
    norm_num [segDensity, get_point_density_ECEF, dist3sq, pyNth, ratSqrtFloor,
      Int.toNat_natCast, int_toNat_lit]
  rw [hv, hd, linspaceSeg_nonpos _ _ _ (le_refl 0)]

/-- The 300 m segment at spacing 100 cm: density 300, x-points `0 … 299`. -/
theorem seg300_eval :
    interpolate_ECEF 0 [0, 300] [0, 0] [0, 0] 2 100 =
      some ((List.range 300).map (fun (n : ℕ) => (n : ℚ)),
            List.replicate 300 0, List.replicate 300 0) := by
  have hv := interpolate_ECEF_vanilla 0 [0, 300] [0, 0] [0, 0] 2 100
    (by norm_num) (by norm_num)
  have hd : segDensity [0, 300] [0, 0] [0, 0] 100 0 = 300 := by
    norm_num [segDensity, get_point_density_ECEF, dist3sq, pyNth, ratSqrtFloor,
      Int.toNat_natCast, int_toNat_lit]
  have ex : linspaceSeg 0 300 300 = (List.range 300).map (fun (n : ℕ) => (n : ℚ)) := by
    rw [linspaceSeg, show ((300 : ℤ)).toNat = 300 from rfl]
    refine List.map_congr_left (fun n hn => ?_)
    have h300 : (((300 : ℤ)) : ℚ) = 300 := by norm_num
    rw [h300]
    have hne : (300 : ℚ) ≠ 0 := by norm_num
    field_simp
  rw [hv, hd,
    show pyNth [0, 300] (((0 : ℕ) : ℤ)) = 0 from rfl,
    show pyNth [0, 300] (((0 : ℕ) : ℤ) + 1) = 300 from rfl,
    show pyNth [0, 0] (((0 : ℕ) : ℤ)) = 0 from rfl,
    show pyNth [0, 0] (((0 : ℕ) : ℤ) + 1) = 0 from rfl,
    ex, linspaceSeg_same, show ((300 : ℤ)).toNat = 300 from rfl]

/-- The full run on coarse x-points `0, 1/2, 2` (y = z = 0) at spacing 100:
the first (sub-spacing) segment emits nothing, the second emits only `1/2`,
and the corner case re-emits the second segment at spacing 25. -/
theorem coverage_cex_eval :
    interpolateAll_ECEF [0, 1/2, 2] [0, 0, 0] [0, 0, 0] 100 =
      some ([1/2, 1/2, 3/4, 1, 5/4, 3/2, 7/4],
            [0, 0, 0, 0, 0, 0, 0], [0, 0, 0, 0, 0, 0, 0]) := by
  norm_num [interpolateAll_ECEF, interpSegsECEF, interpolate_ECEF, get_point_density_ECEF,
    dist3sq, pyNth, linspaceSeg, ratSqrtFloor, Int.toNat_natCast, int_toNat_lit,
    show List.range 3 = [0, 1, 2] from rfl, show List.range 1 = [0] from rfl,
    show List.range 6 = [0, 1, 2, 3, 4, 5] from rfl]

/-! ### Claim theorems -/

/-- C1: the spec prescribes `pointDensity = floor(d / (S/100))` with `d` the
true 3D Euclidean distance (all three coordinates of both points entering).
On the segment `P_i = (0,3,0)`, `P_{i+1} = (4,0,0)` with `S = 100` the true
distance is `5` and the spec density is `5` — the density function itself
computes `5` when handed the real coordinates — but the vanilla call site
passes `relativeX[i]` as the first point's y-coordinate, so the code computes
density `4`. -/
theorem density_call_drops_relativeY :
    specPointDensity3d 0 3 0 4 0 0 100 = 5 ∧
    get_point_density_ECEF 0 3 0 4 0 0 100 = some 5 ∧
    segDensity [0, 4] [3, 0] [0, 0] 100 0 = 4 :=
  ⟨specDensity_eval, gpd_true_dist_eval, segDensity_y_slip_eval⟩

/-- C2 (counterexample): on coarse x-points `0, 1/2, 2` (y = z = 0) with
spacing 100 the fine trajectory is seven points starting at `1/2`: the first
coarse point `(0,0,0)` (its outgoing segment is shorter than the spacing) and
the last coarse point `(2,0,0)` (never emitted by any branch) do not appear,
refuting "contains every coarse point at least once". -/
theorem coverage_claim_cex :
    interpolateAll_ECEF [0, 1/2, 2] [0, 0, 0] [0, 0, 0] 100 =
      some ([1/2, 1/2, 3/4, 1, 5/4, 3/2, 7/4],
            [0, 0, 0, 0, 0, 0, 0], [0, 0, 0, 0, 0, 0, 0]) ∧
    ((0 : ℚ), (0 : ℚ), (0 : ℚ)) ∉
      zip3 [1/2, 1/2, 3/4, 1, 5/4, 3/2, 7/4] [0, 0, 0, 0, 0, 0, 0] [0, 0, 0, 0, 0, 0, 0] ∧
    ((2 : ℚ), (0 : ℚ), (0 : ℚ)) ∉
      zip3 [1/2, 1/2, 3/4, 1, 5/4, 3/2, 7/4] [0, 0, 0, 0, 0, 0, 0] [0, 0, 0, 0, 0, 0, 0] := by
  refine ⟨coverage_cex_eval, ?_, ?_⟩ <;> norm_num [zip3, Prod.ext_iff]

/-- C2 (amended): every coarse point `P_i` with `i < N-1` whose outgoing
vanilla point density is at least `1` appears — in coarse order — in the fine
trajectory (it is the first point of segment `i`'s output); coarse points
whose outgoing density is `0` and the final coarse point need not appear. -/
theorem coverage_of_dense_vanilla_segments (rX rY rZ : List ℚ) (cm : ℚ) (hcm : cm ≠ 0) :
    ∃ xs ys zs, interpolateAll_ECEF rX rY rZ cm = some (xs, ys, zs) ∧
      (((List.range rX.length).map (fun (i : ℕ) =>
          if (i : ℤ) < (rX.length : ℤ) - 1 ∧ 1 ≤ segDensity rX rY rZ cm i
          then [(pyNth rX (i : ℤ), pyNth rY (i : ℤ), pyNth rZ (i : ℤ))]
          else ([] : List (ℚ × ℚ × ℚ)))).flatten).Sublist (zip3 xs ys zs) := by
  obtain ⟨xs, ys, zs, h1, h2⟩ :=
    coverage_go rX rY rZ rX.length cm hcm (List.range rX.length)
  exact ⟨xs, ys, zs, h1, h2⟩

theorem coverage_of_dense_vanilla_segments_witness :
    ∃ xs ys zs, interpolateAll_ECEF [0, 1] [0, 0] [0, 0] 25 = some (xs, ys, zs) ∧
      (((List.range ([0, (1 : ℚ)] : List ℚ).length).map (fun (i : ℕ) =>
          if (i : ℤ) < (([0, (1 : ℚ)] : List ℚ).length : ℤ) - 1 ∧
              1 ≤ segDensity [0, 1] [0, 0] [0, 0] 25 i
          then [(pyNth [0, 1] (i : ℤ), pyNth [0, 0] (i : ℤ), pyNth [0, 0] (i : ℤ))]
          else ([] : List (ℚ × ℚ × ℚ)))).flatten).Sublist (zip3 xs ys zs) :=
  coverage_of_dense_vanilla_segments [0, 1] [0, 0] [0, 0] 25 (by norm_num)

/-- C3: the ECEF vanilla branch honours the configured spacing (`50`:
density 2), but the corner-case re-run of the very same segment uses the
hardcoded `25` (density 4), and the UTM interpolator's output is independent
of the configured spacing altogether — both its density calls pass the
literal `25`. -/
theorem spacing_hardcoded_25 :
    interpolate_ECEF 0 [0, 1] [0, 0] [0, 0] 2 50 = some ([0, 1/2], [0, 0], [0, 0]) ∧
    interpolate_ECEF 1 [0, 1] [0, 0] [0, 0] 2 50 =
      some ([0, 1/4, 1/2, 3/4], [0, 0, 0, 0], [0, 0, 0, 0]) ∧
    ∀ (i : ℕ) (rE rN : List ℚ) (N : ℕ) (cm cm' : ℚ),
      interpolate_UTM i rE rN N cm = interpolate_UTM i rE rN N cm' :=
  ⟨seg0_cm50_eval, seg1_cm50_eval, fun _ _ _ _ _ _ => rfl⟩

/-- C4 (counterexample): at configured spacing `50` the vanilla pass over the
final segment and the corner-case re-run produce different outputs (2 points
against 4), because the corner case hardcodes spacing `25`. -/
theorem final_segment_differs_cex :
    interpolate_ECEF 0 [0, 1] [0, 0] [0, 0] 2 50 ≠
      interpolate_ECEF 1 [0, 1] [0, 0] [0, 0] 2 50 := by
  rw [seg0_cm50_eval, seg1_cm50_eval]
  intro h
  norm_num at h

/-- C4 (amended): when the configured spacing equals the hardcoded default
`25`, the corner case re-runs exactly the `(P_{N-2}, P_{N-1})` interpolation
and its output duplicates the vanilla `i = N-2` step. -/
theorem final_segment_duplicated_at_default (rX rY rZ : List ℚ) (N : ℕ) (hN : 2 ≤ N) :
    interpolate_ECEF (N - 2) rX rY rZ N 25 = interpolate_ECEF (N - 1) rX rY rZ N 25 := by
  have h2 : ((N - 2 : ℕ) : ℤ) = (N : ℤ) - 2 := by omega
  have h1 : ((N - 1 : ℕ) : ℤ) = (N : ℤ) - 1 := by omega
  have e1 : (N : ℤ) - 1 - 1 = (N : ℤ) - 2 := by ring
  have e2 : (N : ℤ) - 2 + 1 = (N : ℤ) - 1 := by ring
  simp only [interpolate_ECEF, h1, h2, e1, e2]
  rw [if_pos (by omega : (N : ℤ) - 2 < (N : ℤ) - 1),
    if_neg (by omega : ¬((N : ℤ) - 1 < (N : ℤ) - 1)), if_pos trivial]

theorem final_segment_duplicated_at_default_witness :
    2 ≤ 2 ∧ interpolate_ECEF 0 [0, 1] [0, 0] [0, 0] 2 25 =
      interpolate_ECEF 1 [0, 1] [0, 0] [0, 0] 2 25 :=
  ⟨le_refl 2, final_segment_duplicated_at_default [0, 1] [0, 0] [0, 0] 2 (le_refl 2)⟩

/-- C5: the concrete scenario `P0 = (0,0,0)`, `P1 = (300,0,0)`, `S = 100`:
the first segment emits exactly the 300 points `x_n = n`, `y = z = 0`,
including `P0` (at `n = 0`) and never `P1`. -/
theorem first_segment_300_points :
    interpolate_ECEF 0 [0, 300] [0, 0] [0, 0] 2 100 =
      some ((List.range 300).map (fun (n : ℕ) => (n : ℚ)),
            List.replicate 300 0, List.replicate 300 0) ∧
    ((List.range 300).map (fun (n : ℕ) => (n : ℚ))).length = 300 ∧
    (0 : ℚ) ∈ (List.range 300).map (fun (n : ℕ) => (n : ℚ)) ∧
    (300 : ℚ) ∉ (List.range 300).map (fun (n : ℕ) => (n : ℚ)) := by
  refine ⟨seg300_eval, by simp, ?_, ?_⟩
  · exact List.mem_map.mpr ⟨0, by simp, by norm_num⟩
  · intro h
    obtain ⟨n, hn, he⟩ := List.mem_map.mp h
    rw [List.mem_range] at hn
    have hn300 : n = 300 := by exact_mod_cast he
    omega

/-- C6 (counterexample): one coarse point (and none) yield a successfully
produced empty fine trajectory — no error of any kind is surfaced. -/
theorem insufficient_points_cex :
    interpolateAll_ECEF [0] [0] [0] 25 = some ([], [], []) ∧
    interpolateAll_ECEF [] [] [] 25 = some ([], [], []) :=
  ⟨interpAll_single_eval 25, interpAll_nil_eval 25⟩

/-- C6 (amended): no validation is performed for `N < 2`: a single coarse
point (relativized, so the sole point is the origin) or an empty sequence
silently produces an empty fine trajectory, for every spacing value. -/
theorem insufficient_points_silently_empty (x y z S : ℚ) :
    interpolateAll_ECEF (global_to_relative [x]) (global_to_relative [y])
      (global_to_relative [z]) S = some ([], [], []) ∧
    interpolateAll_ECEF [] [] [] S = some ([], [], []) := by
  have hx : ∀ a : ℚ, global_to_relative [a] = [0] := fun a => by
    simp [global_to_relative]
  rw [hx x, hx y, hx z]
  exact ⟨interpAll_single_eval S, interpAll_nil_eval S⟩

/-- C7 (counterexample): spacing `-100` is not rejected: the density
computation proceeds (yielding `-300`) and the segment silently produces an
(empty) output instead of failing fast. -/
theorem invalid_spacing_cex :
    get_point_density_ECEF 0 0 0 300 0 0 (-100) = some (-300) ∧
    interpolate_ECEF 0 [0, 300] [0, 0] [0, 0] 2 (-100) = some ([], [], []) :=
  ⟨gpd_neg100_eval, interpolate_vanilla_neg 0 [0, 300] [0, 0] [0, 0] 2 (-100)
    (by norm_num) (by norm_num)⟩

/-- C7 (amended): a negative spacing makes every vanilla segment emit zero
points (the truncated density is nonpositive), with no rejection; a zero
spacing raises an unhandled `ZeroDivisionError` (modelled `none`) at the
first vanilla density computation. -/
theorem invalid_spacing_amended :
    (∀ (i : ℕ) (rX rY rZ : List ℚ) (N : ℕ) (cm : ℚ), cm < 0 →
      (i : ℤ) < (N : ℤ) - 1 → interpolate_ECEF i rX rY rZ N cm = some ([], [], [])) ∧
    (∀ (i : ℕ) (rX rY rZ : List ℚ) (N : ℕ),
      (i : ℤ) < (N : ℤ) - 1 → interpolate_ECEF i rX rY rZ N 0 = none) :=
  ⟨fun i rX rY rZ N cm h1 h2 => interpolate_vanilla_neg i rX rY rZ N cm h1 h2,
   fun i rX rY rZ N h => interpolate_vanilla_zero i rX rY rZ N h⟩

theorem invalid_spacing_amended_witness :
    interpolate_ECEF 0 [0, 1] [0, 0] [0, 0] 2 (-5) = some ([], [], []) ∧
    interpolate_ECEF 0 [0, 1] [0, 0] [0, 0] 2 0 = none :=
  ⟨invalid_spacing_amended.1 0 [0, 1] [0, 0] [0, 0] 2 (-5) (by norm_num) (by norm_num),
   invalid_spacing_amended.2 0 [0, 1] [0, 0] [0, 0] 2 (by norm_num)⟩

/-- C8: two coincident coarse points need not give density `0`: with
`P0 = P1 = (0,100,0)` and `S = 100` the vanilla density call (which passes
`relativeX[i]` for the first y-coordinate) computes distance `100` and emits
`100` duplicate points.  The spec's own concrete scenario `(5,5,5)` happens
to satisfy `x = y`, so there the segment does emit zero points. -/
theorem coincident_points_eval :
    interpolate_ECEF 0 [0, 0] [100, 100] [0, 0] 2 100 =
      some (List.replicate 100 0, List.replicate 100 100, List.replicate 100 0) ∧
    interpolate_ECEF 0 [5, 5] [5, 5] [5, 5] 2 25 = some ([], [], []) :=
  ⟨coincident_seg_eval, coincident_seg555_eval⟩

/-- C9: for a fixed positive spacing the truncated density
`int(d / (S/100))` is monotone in the distance, and the coordinate-level
density function is monotone in the squared distance. -/
theorem pointDensity_monotone :
    (∀ S d1 d2 : ℚ, 0 < S → 0 ≤ d2 → d2 < d1 →
      pointDensityOfDist d2 S ≤ pointDensityOfDist d1 S) ∧
    (∀ a1 b1 c1 a2 b2 c2 u1 v1 w1 u2 v2 w2 cm : ℚ, 0 < cm →
      dist3sq a1 b1 c1 a2 b2 c2 ≤ dist3sq u1 v1 w1 u2 v2 w2 →
      (get_point_density_ECEF a1 b1 c1 a2 b2 c2 cm).getD 0 ≤
        (get_point_density_ECEF u1 v1 w1 u2 v2 w2 cm).getD 0) := by
  constructor
  · intro S d1 d2 hS h2 h12
    have hs : 0 < S / 100 := by positivity
    simp only [pointDensityOfDist]
    rw [ratTrunc_nonneg _ (div_nonneg h2 hs.le),
      ratTrunc_nonneg _ (div_nonneg (h2.trans h12.le) hs.le)]
    exact Int.floor_le_floor ((div_le_div_iff_of_pos_right hs).mpr h12.le)
  · intro a1 b1 c1 a2 b2 c2 u1 v1 w1 u2 v2 w2 cm hcm hle
    have hpow : 0 < (cm / 100) ^ 2 := by positivity
    simp only [get_point_density_ECEF, if_neg (ne_of_gt hcm), if_pos hcm,
      Option.getD_some]
    exact_mod_cast ratSqrtFloor_mono ((div_le_div_iff_of_pos_right hpow).mpr hle)

theorem pointDensity_monotone_witness :
    pointDensityOfDist 1 100 ≤ pointDensityOfDist 2 100 ∧
    (get_point_density_ECEF 0 0 0 1 0 0 100).getD 0 ≤
      (get_point_density_ECEF 0 0 0 2 0 0 100).getD 0 :=
  ⟨pointDensity_monotone.1 100 2 1 (by norm_num) (by norm_num) (by norm_num),
   pointDensity_monotone.2 0 0 0 1 0 0 0 0 0 2 0 0 100 (by norm_num)
     (by norm_num [dist3sq])⟩

/-- C10: each `interpolate_ECEF` call returns three lists of equal length,
and so do the accumulated per-axis sequences of the whole run. -/
theorem interpolate_equal_lengths :
    (∀ (i : ℕ) (rX rY rZ : List ℚ) (N : ℕ) (cm : ℚ) (t : List ℚ × List ℚ × List ℚ),
      interpolate_ECEF i rX rY rZ N cm = some t →
      t.1.length = t.2.1.length ∧ t.2.1.length = t.2.2.length) ∧
    (∀ (rX rY rZ : List ℚ) (cm : ℚ) (t : List ℚ × List ℚ × List ℚ),
      interpolateAll_ECEF rX rY rZ cm = some t →
      t.1.length = t.2.1.length ∧ t.2.1.length = t.2.2.length) :=
  ⟨interpolate_ECEF_lengths,
   fun rX rY rZ cm t h => interpSegsECEF_lengths rX rY rZ rX.length cm _ t h⟩

theorem interpolate_equal_lengths_witness :
    (([0, 1/4, 1/2, 3/4] : List ℚ).length = ([0, 0, 0, 0] : List ℚ).length ∧
      ([0, 0, 0, 0] : List ℚ).length = ([0, 0, 0, 0] : List ℚ).length) ∧
    (([] : List ℚ).length = ([] : List ℚ).length ∧
      ([] : List ℚ).length = ([] : List ℚ).length) :=
  ⟨interpolate_equal_lengths.1 1 [0, 1] [0, 0] [0, 0] 2 50
      ([0, 1/4, 1/2, 3/4], [0, 0, 0, 0], [0, 0, 0, 0]) seg1_cm50_eval,
   interpolate_equal_lengths.2 [0] [0] [0] 25 ([], [], []) (interpAll_single_eval 25)⟩
